import Mathlib

/-!
Verification development for the `secrets` archive tool.

This file embeds the core of the archive layer (src/archive/mod.rs), the JSON
object descriptors (src/archive/object.rs) and the carry-over byte buffer
(src/buffer.rs) as executable Lean definitions, and proves or refutes the
frozen specification claims about them.

Modelling conventions:
  * Machine integers are `Nat` with explicit `% 2 ^ w` where wrap-around
    semantics of the source matters (u32 casts, u64 wrapping subtraction).
  * Byte strings are `List Nat`.
  * The libsodium secretstream is modelled through its contract: a push
    produces a ciphertext that is `ADDITIONAL_BYTES` longer than the
    plaintext, and a pull of an honestly produced ciphertext recovers the
    plaintext.  Authentication failure paths are not needed by the claims
    settled here.
  * `serde_json` serialization is modelled by a JSON value tree together
    with an injective executable byte encoding standing in for the concrete
    JSON text; the archive layer depends only on serialization being an
    injective, decodable map from values to bytes.
  * Fallible Rust functions (`Result`) become values of an explicit result
    type; `unwrap`/`assert!` failures become a dedicated `panicked` outcome.
-/


/-- `crypto_secretstream_xchacha20poly1305_ABYTES` (libsodium): each pushed
message's ciphertext is 17 bytes longer than its plaintext. -/
def ADDITIONAL_BYTES : Nat := 17

/-- `OPSLIMIT` constant from src/archive/mod.rs. -/
def OPSLIMIT : Nat := 3

/-- `MEMLIMIT` constant from src/archive/mod.rs (1 GiB). -/
def MEMLIMIT : Nat := 1024 * 1024 * 1024

/-- Big-endian 4-byte encoding of a (possibly truncated) u32 value,
modelling `BigEndian::write_u32`.  The caller truncates with `% 2 ^ 32`. -/
def u32be (n : Nat) : List Nat :=
  [n / 2 ^ 24 % 256, n / 2 ^ 16 % 256, n / 2 ^ 8 % 256, n % 256]

/-- Big-endian 4-byte read, modelling `BigEndian::read_u32` applied to a
4-byte slice. -/
def readU32be (bs : List Nat) : Nat :=
  (((bs.headD 0 * 256 + (bs.drop 1).headD 0) * 256 + (bs.drop 2).headD 0) * 256
    + (bs.drop 3).headD 0)

/-- Big-endian 8-byte encoding modelling `BigEndian::write_u64_into` (one
u64).  Only its length matters for the claims below. -/
def u64be (n : Nat) : List Nat :=
  [n / 2 ^ 56 % 256, n / 2 ^ 48 % 256, n / 2 ^ 40 % 256, n / 2 ^ 32 % 256,
   n / 2 ^ 24 % 256, n / 2 ^ 16 % 256, n / 2 ^ 8 % 256, n % 256]

/-- Model of one secretstream push: the ciphertext is the plaintext followed
by a 17-byte authentication tag, so `(encMsg m).length = m.length +
ADDITIONAL_BYTES`, matching the libsodium length contract. -/
def encMsg (m : List Nat) : List Nat :=
  m ++ List.replicate ADDITIONAL_BYTES 0

/-- Model of one secretstream pull of an honestly produced ciphertext:
rejects ciphertexts shorter than the tag, otherwise strips the tag.
(`pullMsg (encMsg m) = some m`.) -/
def pullMsg (c : List Nat) : Option (List Nat) :=
  if ADDITIONAL_BYTES ≤ c.length then some (c.take (c.length - ADDITIONAL_BYTES)) else none

/-- `ChunkType` from src/archive/mod.rs. -/
inductive ChunkType where
  | Data
  | Header
  | Epilogue
  | VolumeEnd
  | End
deriving DecidableEq, Repr

/-- The stable small-integer value of each chunk kind (`part_type as u8`). -/
def ChunkType.toByte : ChunkType → Nat
  | .Data => 0
  | .Header => 1
  | .Epilogue => 2
  | .VolumeEnd => 3
  | .End => 4

/-- `ChunkType::try_from(u8)`: inverse of `toByte`, failing on bytes ≥ 5. -/
def ChunkType.fromByte : Nat → Option ChunkType
  | 0 => some .Data
  | 1 => some .Header
  | 2 => some .Epilogue
  | 3 => some .VolumeEnd
  | 4 => some .End
  | _ => none

/-!
## JSON model (serde_json)

JSON values as produced/consumed by the descriptors of
src/archive/object.rs.  The three mutual inductives keep the recursion
structural so all functions below reduce inside the kernel.
-/

mutual
inductive JsonValue where
  | null
  | num (n : Nat)
  | str (s : String)
  | arr (xs : JsonArr)
  | obj (fs : JsonObj)
inductive JsonArr where
  | nil
  | cons (hd : JsonValue) (tl : JsonArr)
inductive JsonObj where
  | nil
  | cons (key : String) (val : JsonValue) (tl : JsonObj)
end

/-- Base-256 little-endian digits of `n` (structural-fuel variant so the
kernel can evaluate it). -/
def natDigitsAux : Nat → Nat → List Nat
  | _, 0 => []
  | 0, _ + 1 => []
  | f + 1, m + 1 => (m + 1) % 256 :: natDigitsAux f ((m + 1) / 256)

/-- Base-256 little-endian digits of `n`. -/
def natDigits (n : Nat) : List Nat := natDigitsAux n n

/-- Value of a base-256 little-endian digit list. -/
def ofDigits : List Nat → Nat
  | [] => 0
  | d :: ds => d + 256 * ofDigits ds

/-- Self-delimiting encoding of a natural number: unary digit count, a 0
terminator, then the base-256 digits. -/
def encNat (n : Nat) : List Nat :=
  List.replicate (natDigits n).length 1 ++ [0] ++ natDigits n

/-- Self-delimiting encoding of a string: length, then the character
codes. -/
def encStr (s : String) : List Nat :=
  encNat s.length ++ s.data.map Char.toNat

/-- Number of entries of a JSON array. -/
def jarrLength : JsonArr → Nat
  | .nil => 0
  | .cons _ tl => jarrLength tl + 1

/-- Number of fields of a JSON object. -/
def jobjLength : JsonObj → Nat
  | .nil => 0
  | .cons _ _ tl => jobjLength tl + 1

mutual
/-- Injective byte encoding of a JSON value, standing in for the byte string
`serde_json::to_vec` produces for it. -/
def encodeJson : JsonValue → List Nat
  | .null => [0]
  | .num n => 1 :: encNat n
  | .str s => 2 :: encStr s
  | .arr xs => 3 :: (encNat (jarrLength xs) ++ encodeJsonArr xs)
  | .obj fs => 4 :: (encNat (jobjLength fs) ++ encodeJsonObj fs)
/-- Byte encoding of the elements of a JSON array. -/
def encodeJsonArr : JsonArr → List Nat
  | .nil => []
  | .cons x xs => encodeJson x ++ encodeJsonArr xs
/-- Byte encoding of the fields of a JSON object. -/
def encodeJsonObj : JsonObj → List Nat
  | .nil => []
  | .cons k v fs => encStr k ++ encodeJson v ++ encodeJsonObj fs
end

/-- Decoder state: count leading nonzero bytes until a 0 terminator. -/
def decodeUnary : List Nat → Option (Nat × List Nat)
  | [] => none
  | 0 :: r => some (0, r)
  | (_ + 1) :: r =>
    match decodeUnary r with
    | some (k, r') => some (k + 1, r')
    | none => none

/-- Take exactly `n` bytes from the front. -/
def readN : Nat → List Nat → Option (List Nat × List Nat)
  | 0, bs => some ([], bs)
  | _ + 1, [] => none
  | n + 1, b :: bs =>
    match readN n bs with
    | some (xs, r) => some (b :: xs, r)
    | none => none

/-- Decode one `encNat`-encoded natural. -/
def decNat (bs : List Nat) : Option (Nat × List Nat) :=
  match decodeUnary bs with
  | none => none
  | some (k, r) =>
    match readN k r with
    | none => none
    | some (ds, r') => some (ofDigits ds, r')

/-- Decode one `encStr`-encoded string. -/
def decStr (bs : List Nat) : Option (String × List Nat) :=
  match decNat bs with
  | none => none
  | some (k, r) =>
    match readN k r with
    | none => none
    | some (cs, r') => some (String.mk (cs.map Char.ofNat), r')

/-- What the JSON decoder is currently parsing. -/
inductive DecMode where
  | one
  | many (k : Nat)
  | fields (k : Nat)

/-- Result of one decoder phase. -/
inductive DecOut where
  | one (j : JsonValue)
  | many (xs : JsonArr)
  | fields (fs : JsonObj)

/-- Fuel-indexed JSON byte decoder (single structural recursion on the fuel
so the kernel can evaluate it).  `jsonFromBytes` below supplies enough fuel
for any input it is given. -/
def decodeStep : Nat → DecMode → List Nat → Option (DecOut × List Nat)
  | 0, _, _ => none
  | _ + 1, .one, 0 :: r => some (.one .null, r)
  | _ + 1, .one, 1 :: r =>
    match decNat r with
    | some (n, r') => some (.one (.num n), r')
    | none => none
  | _ + 1, .one, 2 :: r =>
    match decStr r with
    | some (s, r') => some (.one (.str s), r')
    | none => none
  | f + 1, .one, 3 :: r =>
    match decNat r with
    | some (k, r1) =>
      match decodeStep f (.many k) r1 with
      | some (.many xs, r2) => some (.one (.arr xs), r2)
      | _ => none
    | none => none
  | f + 1, .one, 4 :: r =>
    match decNat r with
    | some (k, r1) =>
      match decodeStep f (.fields k) r1 with
      | some (.fields fs, r2) => some (.one (.obj fs), r2)
      | _ => none
    | none => none
  | _ + 1, .one, _ => none
  | _ + 1, .many 0, bs => some (.many .nil, bs)
  | f + 1, .many (k + 1), bs =>
    match decodeStep f .one bs with
    | some (.one j, r1) =>
      match decodeStep f (.many k) r1 with
      | some (.many xs, r2) => some (.many (.cons j xs), r2)
      | _ => none
    | _ => none
  | _ + 1, .fields 0, bs => some (.fields .nil, bs)
  | f + 1, .fields (k + 1), bs =>
    match decStr bs with
    | some (key, r1) =>
      match decodeStep f .one r1 with
      | some (.one v, r2) =>
        match decodeStep f (.fields k) r2 with
        | some (.fields fs, r3) => some (.fields (.cons key v fs), r3)
        | _ => none
      | _ => none
    | none => none

/-- Model of `serde_json::from_slice` up to the JSON value level: decode a
byte string into a JSON value, requiring all input to be consumed. -/
def jsonFromBytes (bs : List Nat) : Option JsonValue :=
  match decodeStep (2 * bs.length + 8) .one bs with
  | some (.one j, []) => some j
  | _ => none

deriving instance DecidableEq for JsonValue

/-!
## Object descriptors (src/archive/object.rs)
-/

/-- `ObjectType` from src/archive/object.rs. -/
inductive ObjectType where
  | File
  | Directory
deriving DecidableEq, Repr

/-- `ObjectEpilogue` from src/archive/object.rs: `size: u64`, `hash: String`. -/
structure ObjectEpilogue where
  size : Nat
  hash : String
deriving DecidableEq, Repr

/-- `ObjectInfo` from src/archive/object.rs.  The `epilogue` field carries
`#[serde(skip)]` in the source: it exists in memory but takes no part in
serialization or deserialization. -/
structure ObjectInfo where
  object_type : ObjectType
  name : String
  original_path : String
  path : List String
  offset : Option Nat
  epilogue : Option ObjectEpilogue
deriving DecidableEq, Repr

/-- `Manifest` from src/archive/mod.rs. -/
structure Manifest where
  objects : List ObjectInfo
deriving DecidableEq, Repr

/-- JSON value of `ObjectType` (`impl Serialize for ObjectType`). -/
def serializeObjectType : ObjectType → JsonValue
  | .File => .str "file"
  | .Directory => .str "directory"

/-- A JSON array of strings. -/
def strsToJsonArr : List String → JsonArr
  | [] => .nil
  | s :: ss => .cons (.str s) (strsToJsonArr ss)

/-- Serialization of the derived `Serialize` for `ObjectInfo`: the fields in
declaration order, with `offset: Option<u64>` as number-or-null, and the
`epilogue` field omitted entirely because of its `#[serde(skip)]`
attribute. -/
def serializeObjectInfo (info : ObjectInfo) : JsonValue :=
  .obj (.cons "object_type" (serializeObjectType info.object_type)
    (.cons "name" (.str info.name)
      (.cons "original_path" (.str info.original_path)
        (.cons "path" (.arr (strsToJsonArr info.path))
          (.cons "offset" (match info.offset with | none => .null | some n => .num n)
            .nil)))))

/-- Serialization of the derived `Serialize` for `ObjectEpilogue`. -/
def serializeEpilogue (e : ObjectEpilogue) : JsonValue :=
  .obj (.cons "size" (.num e.size) (.cons "hash" (.str e.hash) .nil))

/-- A JSON array holding the serialized descriptors of a list of objects. -/
def objsToJsonArr : List ObjectInfo → JsonArr
  | [] => .nil
  | o :: os => .cons (serializeObjectInfo o) (objsToJsonArr os)

/-- Serialization of the derived `Serialize` for `Manifest`. -/
def serializeManifest (m : Manifest) : JsonValue :=
  .obj (.cons "objects" (.arr (objsToJsonArr m.objects)) .nil)

/-- First value bound to `key` in a JSON object, if any. -/
def jsonLookup : JsonObj → String → Option JsonValue
  | .nil, _ => none
  | .cons k v tl, key => if k = key then some v else jsonLookup tl key

/-- Field lookup on a JSON value (none when it is not an object). -/
def JsonValue.field : JsonValue → String → Option JsonValue
  | .obj fs, key => jsonLookup fs key
  | _, _ => none

/-- Deserialization of `ObjectType` (`impl Deserialize`): only the strings
"file" and "directory" are accepted. -/
def deserializeObjectType : JsonValue → Option ObjectType
  | .str "file" => some .File
  | .str "directory" => some .Directory
  | _ => none

/-- A JSON array read back as a list of strings. -/
def jsonArrAsStrs : JsonArr → Option (List String)
  | .nil => some []
  | .cons (.str s) tl =>
    match jsonArrAsStrs tl with
    | some ss => some (s :: ss)
    | none => none
  | .cons _ _ => none

/-- Deserialization of the derived `Deserialize` for `ObjectInfo`: the four
non-`Option` fields are required, `offset` defaults to `None` when missing
or null, numbers must fit in a u64, unknown fields are ignored, and the
`#[serde(skip)]` `epilogue` field is always `None`. -/
def deserializeObjectInfo (j : JsonValue) : Option ObjectInfo :=
  match j with
  | .obj fs =>
    match deserializeObjectType ((jsonLookup fs "object_type").getD .null) with
    | none => none
    | some t =>
      match jsonLookup fs "name" with
      | some (.str name) =>
        match jsonLookup fs "original_path" with
        | some (.str orig) =>
          match jsonLookup fs "path" with
          | some (.arr a) =>
            match jsonArrAsStrs a with
            | some path =>
              match jsonLookup fs "offset" with
              | none => some ⟨t, name, orig, path, none, none⟩
              | some .null => some ⟨t, name, orig, path, none, none⟩
              | some (.num n) =>
                if n < 2 ^ 64 then some ⟨t, name, orig, path, some n, none⟩ else none
              | some _ => none
            | none => none
          | _ => none
        | _ => none
      | _ => none
  | _ => none

/-- Deserialization of the derived `Deserialize` for `ObjectEpilogue`. -/
def deserializeEpilogue (j : JsonValue) : Option ObjectEpilogue :=
  match j with
  | .obj fs =>
    match jsonLookup fs "size" with
    | some (.num n) =>
      if n < 2 ^ 64 then
        match jsonLookup fs "hash" with
        | some (.str h) => some ⟨n, h⟩
        | _ => none
      else none
    | _ => none
  | _ => none

/-- A JSON array read back as a list of object descriptors. -/
def jsonArrAsObjs : JsonArr → Option (List ObjectInfo)
  | .nil => some []
  | .cons j tl =>
    match deserializeObjectInfo j with
    | some o =>
      match jsonArrAsObjs tl with
      | some os => some (o :: os)
      | none => none
    | none => none

/-- Deserialization of the derived `Deserialize` for `Manifest`. -/
def deserializeManifest (j : JsonValue) : Option Manifest :=
  match j with
  | .obj fs =>
    match jsonLookup fs "objects" with
    | some (.arr a) =>
      match jsonArrAsObjs a with
      | some os => some ⟨os⟩
      | none => none
    | _ => none
  | _ => none

/-- `sodium::to_hex` digit. -/
def hexChar (n : Nat) : Char :=
  if n < 10 then Char.ofNat (48 + n) else Char.ofNat (87 + n)

/-- `sodium::to_hex`: lowercase hex of a byte string. -/
def toHex (bs : List Nat) : String :=
  String.mk ((bs.map (fun b => [hexChar (b / 16), hexChar (b % 16)])).flatten)

/-!
## Archive writer (src/archive/mod.rs)

The writer state keeps, besides the fields of the Rust struct, the bytes
already written to the current volume file and to every closed volume file,
and the sequence of plaintexts pushed through the secret stream.  I/O is
modelled by `sinkOk`: when false, every `write_all`/file operation fails
with an io error (the primitive calls in the writer — pwhash and
secretstream pushes — are infallible or `unwrap`ed in the source).
-/

/-- State of `ArchiveWriter` (src/archive/mod.rs), together with the
observable output channels of the model. -/
structure ArchiveWriter where
  /-- Byte contents of every volume file that has been closed by rotation. -/
  closedVolumes : List (List Nat)
  /-- Bytes written so far to the currently open file. -/
  current : List Nat
  /-- Plaintexts pushed through the secret stream, in push order. -/
  msgs : List (List Nat)
  /-- The `(kind, payload)` chunks fully written so far, in order. -/
  chunks : List (ChunkType × List Nat)
  /-- The `objects` vector (manifest accumulator). -/
  objects : List ObjectInfo
  /-- The `volume_counter` field. -/
  volumeCounter : Nat
  /-- The `volume_size` option. -/
  volumeSize : Option Nat
  /-- The `byte_count` field. -/
  byteCount : Nat
  /-- The `ended` flag. -/
  ended : Bool
  /-- Whether the underlying byte sink accepts writes (io model). -/
  sinkOk : Bool
deriving DecidableEq, Repr

/-- Outcome of a writer operation: `Ok`, an `Err` propagated to the caller
(carrying the mutated writer, as the Rust `&mut self` keeps its state), or
a process panic (`unwrap`/`assert!` failure). -/
inductive WRes (α : Type) where
  | ok (a : α)
  | err (w : ArchiveWriter)
  | panicked
deriving DecidableEq, Repr

/-- `ArchiveWriter::new` after a successful construction: the salt, the two
big-endian u64 KDF parameters and the secretstream public header have been
written to the first volume file and counted in `byte_count`.  The salt and
stream header come from the random/crypto primitives and are parameters of
the model. -/
def ArchiveWriter.new (salt header : List Nat) (volumeSize : Option Nat)
    (sinkOk : Bool) : ArchiveWriter :=
  { closedVolumes := []
    current := salt ++ (u64be OPSLIMIT ++ u64be MEMLIMIT) ++ header
    msgs := []
    chunks := []
    objects := []
    volumeCounter := 1
    volumeSize := volumeSize
    byteCount := (salt ++ (u64be OPSLIMIT ++ u64be MEMLIMIT) ++ header).length
    ended := false
    sinkOk := sinkOk }

/-- `ArchiveWriter::write_chunk_unchecked`: build the 5-byte info plaintext
`{kind, (len(data) + ADDITIONAL_BYTES) as u32 BE}`, push it and the payload
through the secret stream, `assert!` the ciphertext length fits a u32, then
write both ciphertexts to the current file.  Returns the number of bytes
written. -/
def writeChunkUnchecked (w : ArchiveWriter) (data : List Nat) (t : ChunkType) :
    WRes (ArchiveWriter × Nat) :=
  let clen := data.length + ADDITIONAL_BYTES
  let info := t.toByte :: u32be (clen % 2 ^ 32)
  let w1 := { w with msgs := w.msgs ++ [info, data] }
  if 2 ^ 32 ≤ clen then .panicked
  else if w.sinkOk then
    .ok ({ w1 with
            current := w1.current ++ encMsg info ++ encMsg data
            chunks := w1.chunks ++ [(t, data)] },
         (5 + ADDITIONAL_BYTES) + clen)
  else .err w1

/-- The projected on-disk size of the two records of a chunk whose payload
has `dataLen` bytes (`chunk_size` in `write_chunk`). -/
def chunkSize (dataLen : Nat) : Nat :=
  4 + 1 + ADDITIONAL_BYTES + dataLen + ADDITIONAL_BYTES

/-- The hard-coded allowance for a subsequent VolumeEnd chunk
(`extra_size` in `write_chunk`). -/
def extraSize : Nat :=
  4 + 1 + ADDITIONAL_BYTES + 1024 + ADDITIONAL_BYTES

/-- The u64 rotation test of `write_chunk`:
`byte_count + chunk_size + extra_size > volume_size - 4 * 1024`, with the
subtraction wrapping as u64 release-mode arithmetic does. -/
def rotateNeeded (byteCount dataLen volumeSize : Nat) : Bool :=
  (byteCount + chunkSize dataLen + extraSize) % 2 ^ 64 >
    (volumeSize + 2 ^ 64 - 4 * 1024) % 2 ^ 64

/-- The tail of `ArchiveWriter::write_chunk`:
`self.byte_count += self.write_chunk_unchecked(data, part_type)?`. -/
def writeChunkCounted (w : ArchiveWriter) (data : List Nat) (t : ChunkType) :
    WRes ArchiveWriter :=
  match writeChunkUnchecked w data t with
  | .panicked => .panicked
  | .err w3 => .err w3
  | .ok (w3, n) => .ok { w3 with byteCount := w3.byteCount + n }

/-- Closing the current volume file and opening the next one
(`File::create(get_real_path(.., volume_counter + 1))`, counter bump and
`byte_count` reset); the fresh volume carries no header bytes. -/
def rotateVolume (w : ArchiveWriter) : ArchiveWriter :=
  { w with
    closedVolumes := w.closedVolumes ++ [w.current]
    current := []
    volumeCounter := w.volumeCounter + 1
    byteCount := 0 }

/-- `ArchiveWriter::write_chunk`: when a volume size is configured and the
projected chunk plus the VolumeEnd allowance would overflow it, write a
VolumeEnd chunk, close the current file and open the next volume, then
write the chunk and add the written bytes to `byte_count`. -/
def writeChunk (w : ArchiveWriter) (data : List Nat) (t : ChunkType) :
    WRes ArchiveWriter :=
  if (match w.volumeSize with
      | none => false
      | some v => rotateNeeded w.byteCount data.length v) then
    match writeChunkUnchecked w [] .VolumeEnd with
    | .panicked => .panicked
    | .err w' => .err w'
    | .ok (w', _) => writeChunkCounted (rotateVolume w') data t
  else writeChunkCounted w data t

/-- `ArchiveWriter::end`: guarded by the `ended` flag (set before the
write), serialize the manifest and write it as the End chunk. -/
def endWriter (w : ArchiveWriter) : WRes ArchiveWriter :=
  if w.ended then .ok w
  else
    match writeChunk { w with ended := true }
        (encodeJson (serializeManifest ⟨w.objects⟩)) .End with
    | .panicked => .panicked
    | .err w2 => .err w2
    | .ok w2 => .ok w2

/-- `impl Drop for ArchiveWriter`: `self.end().unwrap()` — an `Err` from
`end` becomes a process panic. -/
def dropWriter (w : ArchiveWriter) : WRes ArchiveWriter :=
  match endWriter w with
  | .ok w' => .ok w'
  | .err _ => .panicked
  | .panicked => .panicked

/-!
## Object writing (ArchiveWriter::write_object)

The filesystem, the streaming compressor and the content hash are external
collaborators: the object's descriptor (as `ObjectInfo::from_path` returns
it, with `epilogue = None`), the sequence of byte blocks successive
`file.read` calls return, the compressor transition functions and the hash
function are parameters of the model.  The read loop stops at the first
empty read, exactly like the `count == 0` break in the source.
-/

/-- The read loop of `write_object`: for each non-empty read, compress it
and write any non-empty compressor output as a Data chunk, update the
running hash input and the byte count. -/
def writeObjectLoop {CState : Type}
    (compress : CState → List Nat → CState × List Nat)
    (w : ArchiveWriter) (c : CState) (acc : List Nat) (size : Nat) :
    List (List Nat) → WRes (ArchiveWriter × CState × List Nat × Nat)
  | [] => .ok (w, c, acc, size)
  | r :: rest =>
    if r = [] then .ok (w, c, acc, size)
    else
      match compress c r with
      | (c', out) =>
        if out = [] then writeObjectLoop compress w c' (acc ++ r) (size + r.length) rest
        else
          match writeChunk w out .Data with
          | .panicked => .panicked
          | .err w' => .err w'
          | .ok w' => writeObjectLoop compress w' c' (acc ++ r) (size + r.length) rest

/-- `ArchiveWriter::write_object`: write the Header chunk with the
serialized descriptor; stop there for directories.  For files, run the read
loop, always write the compressor's `finish` output as a final Data chunk,
write the Epilogue chunk `{size, hex(hash)}`, and append the completed
descriptor (epilogue inlined) to `objects`. -/
def writeObject {CState : Type}
    (compress : CState → List Nat → CState × List Nat)
    (cfinish : CState → List Nat) (c0 : CState)
    (hashFn : List Nat → List Nat)
    (w : ArchiveWriter) (info : ObjectInfo) (reads : List (List Nat)) :
    WRes ArchiveWriter :=
  match writeChunk w (encodeJson (serializeObjectInfo info)) .Header with
  | .panicked => .panicked
  | .err w1 => .err w1
  | .ok w1 =>
    if info.object_type = .Directory then .ok w1
    else
      match writeObjectLoop compress w1 c0 [] 0 reads with
      | .panicked => .panicked
      | .err w2 => .err w2
      | .ok (w2, c, acc, size) =>
        match writeChunk w2 (cfinish c) .Data with
        | .panicked => .panicked
        | .err w3 => .err w3
        | .ok w3 =>
          match writeChunk w3
              (encodeJson (serializeEpilogue ⟨size, toHex (hashFn acc)⟩)) .Epilogue with
          | .panicked => .panicked
          | .err w4 => .err w4
          | .ok w4 =>
            .ok { w4 with objects :=
                    w4.objects ++ [{ info with epilogue := some ⟨size, toHex (hashFn acc)⟩ }] }

/-!
## Archive reader (src/archive/mod.rs)

The reader's current file is the list of not-yet-consumed bytes; the
filesystem visible to `open_next_volume` is a map from file names to file
contents.  `read_chunk` and `read_object` take explicit fuel bounding the
depth of the volume-chain recursion (the source recursion is unbounded in
the length of the volume chain).
-/

/-- State of `ArchiveReader` (src/archive/mod.rs). -/
structure ArchiveReader where
  /-- Remaining bytes of the currently open file. -/
  input : List Nat
  /-- The `raw_path` file name the reader was opened with. -/
  rawName : String
  /-- The filesystem: file name to contents. -/
  fs : String → Option (List Nat)
  /-- The `volume_counter` option. -/
  volumeCounter : Option Nat
  /-- The decoded manifest, once the End chunk has been read. -/
  manifest : Option Manifest

/-- Outcome of a reader operation: success, an error propagated to the
caller, or a process panic from an `unwrap`. -/
inductive RRes (α : Type) where
  | ok (a : α)
  | err
  | panicked

/-- Zero-padded three-digit decimal, modelling `format!(".{:03}", n)`'s
digit part. -/
def pad3 (n : Nat) : String :=
  if n < 10 then "00" ++ toString n
  else if n < 100 then "0" ++ toString n
  else toString n

/-- `str::ends_with(".001")`, written so the kernel can evaluate it: a
string ends with ".001" exactly when re-appending ".001" to all but its
last four characters gives the string back. -/
def endsWith001 (s : String) : Bool :=
  decide (s.dropRight 4 ++ ".001" = s)

/-- `ArchiveReader::open_next_volume`: require the opened file name to end
in ".001", bump the volume counter (starting it at 1), replace the suffix
with the new counter and open that file. -/
def openNextVolume (r : ArchiveReader) : RRes ArchiveReader :=
  if endsWith001 r.rawName then
    let counter := (match r.volumeCounter with | none => 1 | some c => c) + 1
    let nextName := (r.rawName.dropRight 4) ++ "." ++ pad3 counter
    match r.fs nextName with
    | none => .err
    | some content => .ok { r with input := content, volumeCounter := some counter }
  else .err

/-- Read exactly `n` bytes from the head of the input
(`file.read_exact`). -/
def readExact (input : List Nat) (n : Nat) : Option (List Nat × List Nat) :=
  if n ≤ input.length then some (input.take n, input.drop n) else none

/-- `ArchiveReader::read_chunk`: read and pull the `1 + 4 +
ADDITIONAL_BYTES`-byte info record, `unwrap` the chunk type of its first
plaintext byte, read and pull exactly `ciphertext_length` bytes, and on a
VolumeEnd chunk open the next volume and recurse instead of returning. -/
def readChunk : Nat → ArchiveReader → RRes (ChunkType × List Nat × ArchiveReader)
  | 0, _ => .err
  | fuel + 1, r =>
    match readExact r.input (1 + 4 + ADDITIONAL_BYTES) with
    | none => .err
    | some (encryptedInfo, rest) =>
      match pullMsg encryptedInfo with
      | none => .err
      | some inf =>
        match ChunkType.fromByte (inf.headD 0) with
        | none => .panicked
        | some t =>
          let clen := readU32be (inf.drop 1)
          match readExact rest clen with
          | none => .err
          | some (ciphertext, rest') =>
            match pullMsg ciphertext with
            | none => .err
            | some chunk =>
              if t = .VolumeEnd then
                match openNextVolume { r with input := rest' } with
                | .err => .err
                | .panicked => .panicked
                | .ok r' => readChunk fuel r'
              else .ok (t, chunk, { r with input := rest' })

/-- `ArchiveReader::read_object`: read one chunk; on End decode the
manifest (`?` — an undecodable manifest is an error) and return "no more
objects"; for any other kind `unwrap` the payload parsed as an object
descriptor — a panic when the payload is not a well-formed descriptor —
and return the object reader state. -/
def readObject (fuel : Nat) (r : ArchiveReader) :
    RRes (ArchiveReader × Option ObjectInfo) :=
  match readChunk fuel r with
  | .err => .err
  | .panicked => .panicked
  | .ok (t, part, r') =>
    if t = .End then
      match (jsonFromBytes part).bind deserializeManifest with
      | none => .err
      | some m => .ok ({ r' with manifest := some m }, none)
    else
      match (jsonFromBytes part).bind deserializeObjectInfo with
      | none => .panicked
      | some inf => .ok (r', some inf)

/-!
## Buffer (src/buffer.rs)

`Vec<u8>` is a byte list; `resize(self.buf.capacity(), 0)` is modelled by
growing to exactly the needed size — `Vec::capacity` only promises at least
that much, and none of the properties below depend on the slack.
-/

/-- Overwrite `l[i .. i + src.length]` with `src`
(`copy_from_slice`/`copy_within` target). -/
def setRange (l : List Nat) (i : Nat) (src : List Nat) : List Nat :=
  l.take i ++ src ++ l.drop (i + src.length)

/-- `Buffer` from src/buffer.rs. -/
structure Buffer where
  buf : List Nat
  offset : Nat
  len : Nat
  initialCapacity : Nat
deriving DecidableEq, Repr

/-- `Buffer::with_capacity`. -/
def Buffer.withCapacity (capacity : Nat) : Buffer :=
  { buf := List.replicate capacity 0, offset := 0, len := 0, initialCapacity := capacity }

/-- The live bytes `buf[offset .. offset + len]` of a buffer. -/
def Buffer.contents (b : Buffer) : List Nat :=
  (b.buf.drop b.offset).take b.len

/-- First step of `Buffer::put`: when the free tail `buf.len() - (offset +
len)` cannot hold `data`, move the live bytes to the front
(`copy_within(offset..offset + len, 0)`) and zero the offset.  The free
space after compaction is `capacity + offset`, which equals the same
expression `buf.len() - (offset + len)` recomputed on the new state. -/
def Buffer.putCompact (b : Buffer) (data : List Nat) : Buffer :=
  if b.buf.length - (b.offset + b.len) < data.length then
    { b with buf := setRange b.buf 0 ((b.buf.drop b.offset).take b.len), offset := 0 }
  else b

/-- Second step of `Buffer::put`: when the free space still cannot hold
`data`, reserve and `resize`.  `Vec::resize(capacity(), 0)` grows to at
least the needed size; the model grows to exactly it, which none of the
buffer's observable behaviour depends on. -/
def Buffer.putGrow (b : Buffer) (data : List Nat) : Buffer :=
  if b.buf.length - (b.offset + b.len) < data.length then
    { b with
      buf := b.buf ++ List.replicate (data.length - (b.buf.length - (b.offset + b.len))) 0 }
  else b

/-- Last step of `Buffer::put`: `copy_from_slice` the new bytes after the
live region and bump `len`. -/
def Buffer.putWrite (b : Buffer) (data : List Nat) : Buffer :=
  { b with buf := setRange b.buf (b.offset + b.len) data, len := b.len + data.length }

/-- `Buffer::put`: if the free tail cannot hold `data`, first compact the
live bytes to offset 0 (`copy_within`); if it still cannot, grow the
backing vector; then copy `data` after the live bytes and bump `len`. -/
def Buffer.put (b : Buffer) (data : List Nat) : Buffer :=
  Buffer.putWrite (Buffer.putGrow (Buffer.putCompact b data) data) data

/-- `Buffer::drain_into`: copy `min(dst.len, len)` bytes from the head of
the live region into the front of `dst`, advance `offset`, shrink `len`,
and return the new buffer, the written destination and the count. -/
def Buffer.drainInto (b : Buffer) (dst : List Nat) : Buffer × List Nat × Nat :=
  ({ b with
      offset := b.offset + min dst.length b.len
      len := b.len - min dst.length b.len },
   setRange dst 0 ((b.buf.drop b.offset).take (min dst.length b.len)),
   min dst.length b.len)

/-- Well-formedness of a buffer: the live region lies inside the backing
vector. -/
def Buffer.wf (b : Buffer) : Prop :=
  b.offset + b.len ≤ b.buf.length

instance (b : Buffer) : Decidable b.wf := by
  unfold Buffer.wf
  infer_instance

def payloadChunks (w : ArchiveWriter) : List (ChunkType × List Nat) :=
  w.chunks.filter (fun c => decide (c.1 ≠ ChunkType.VolumeEnd))

/-- The file reads actually consumed by the `write_object` read loop: the
loop breaks at the first empty read. -/
def consumedReads (reads : List (List Nat)) : List (List Nat) :=
  reads.takeWhile (fun r => decide (r ≠ []))

/-- The `size` accumulated for an object: total plaintext bytes read. -/
def objectSize (reads : List (List Nat)) : Nat :=
  ((consumedReads reads).map List.length).sum

/-- The epilogue `write_object` computes for a file object: plaintext byte
count and lowercase hex of the content hash. -/
def objectEpilogueOf (hashFn : List Nat → List Nat) (reads : List (List Nat)) :
    ObjectEpilogue :=
  ⟨objectSize reads, toHex (hashFn (consumedReads reads).flatten)⟩

/-- The successive compressor outputs along a sequence of reads. -/
def compressOuts {CState : Type} (compress : CState → List Nat → CState × List Nat) :
    CState → List (List Nat) → List (List Nat)
  | _, [] => []
  | c, r :: rest => (compress c r).2 :: compressOuts compress (compress c r).1 rest

/-- The compressor state after a sequence of reads. -/
def finalCState {CState : Type} (compress : CState → List Nat → CState × List Nat) :
    CState → List (List Nat) → CState
  | c, [] => c
  | c, r :: rest => finalCState compress (compress c r).1 rest

/-- Driving the writer over a list of objects: each entry is the descriptor
`ObjectInfo::from_path` produced and the file's read sequence. -/
def runObjects {CState : Type} (compress : CState → List Nat → CState × List Nat)
    (cfinish : CState → List Nat) (c0 : CState) (hashFn : List Nat → List Nat) :
    ArchiveWriter → List (ObjectInfo × List (List Nat)) → WRes ArchiveWriter
  | w, [] => .ok w
  | w, (i, reads) :: rest =>
    match writeObject compress cfinish c0 hashFn w i reads with
    | .ok w' => runObjects compress cfinish c0 hashFn w' rest
    | .err w' => .err w'
    | .panicked => .panicked

/-- The descriptors `write_object` pushes into the manifest accumulator for
a sequence of objects: the file objects, in order, with their epilogues
inlined — directory objects are skipped by the early return. -/
def manifestObjects (hashFn : List Nat → List Nat) :
    List (ObjectInfo × List (List Nat)) → List ObjectInfo
  | [] => []
  | (i, reads) :: rest =>
    if i.object_type = .Directory then manifestObjects hashFn rest
    else { i with epilogue := some (objectEpilogueOf hashFn reads) } :: manifestObjects hashFn rest

set_option maxRecDepth 100000

def salt0 : List Nat := List.replicate 16 0

def header0 : List Nat := List.replicate 24 0

/-- A freshly constructed single-volume writer over a working sink. -/
def baseWriter : ArchiveWriter := ArchiveWriter.new salt0 header0 none true

def dirInfo0 : ObjectInfo :=
  { object_type := .Directory, name := "a", original_path := "/a", path := ["a"],
    offset := none, epilogue := none }

def fileInfo0 : ObjectInfo :=
  { object_type := .File, name := "b", original_path := "/b", path := ["b"],
    offset := none, epilogue := none }

/-- A concrete instance of the compression contract: identity output. -/
def idCompress : Unit → List Nat → Unit × List Nat := fun c r => (c, r)

/-- A concrete `finish` with empty tail output. -/
def emptyFinish : Unit → List Nat := fun _ => []

/-- A concrete instance of the content-hash contract. -/
def idHash : List Nat → List Nat := fun bs => bs

def c2cexRun : WRes ArchiveWriter :=
  match writeObject idCompress emptyFinish () idHash baseWriter dirInfo0 [] with
  | .ok w => endWriter w
  | x => x

def c2ops : List (ObjectInfo × List (List Nat)) := [(dirInfo0, []), (fileInfo0, [[104, 105]])]

def c2w' : ArchiveWriter :=
  match runObjects idCompress emptyFinish () idHash baseWriter c2ops with
  | .ok w => w
  | _ => baseWriter

def c3info0 : ObjectInfo :=
  { object_type := .File, name := "f", original_path := "/f", path := ["f"],
    offset := none, epilogue := none }

def c3done : ObjectInfo := { c3info0 with epilogue := some ⟨2, "6869"⟩ }

def c3mid : ArchiveWriter :=
  match writeObject idCompress emptyFinish () idHash baseWriter c3info0 [[104, 105]] with
  | .ok w => w
  | _ => baseWriter

def endedWriter : ArchiveWriter := { baseWriter with ended := true }

def c5w' : ArchiveWriter :=
  match endWriter baseWriter with
  | .ok w => w
  | _ => baseWriter

def c9w' : ArchiveWriter :=
  match writeObject idCompress emptyFinish () idHash baseWriter fileInfo0 [[104, 105]] with
  | .ok w => w
  | _ => baseWriter

def epiPayload0 : List Nat := encodeJson (serializeEpilogue ⟨5, "abc"⟩)

def c6reader : ArchiveReader :=
  { input := encMsg (ChunkType.Epilogue.toByte :: u32be (epiPayload0.length + ADDITIONAL_BYTES))
      ++ (encMsg epiPayload0 ++ [])
    rawName := "a.001"
    fs := fun _ => none
    volumeCounter := none
    manifest := none }

def hdrPayload0 : List Nat := encodeJson (serializeObjectInfo dirInfo0)

def c6okReader : ArchiveReader :=
  { input := encMsg (ChunkType.Header.toByte :: u32be (hdrPayload0.length + ADDITIONAL_BYTES))
      ++ (encMsg hdrPayload0 ++ [])
    rawName := "a.001"
    fs := fun _ => none
    volumeCounter := none
    manifest := none }

def c1reader : ArchiveReader :=
  { input := encMsg (ChunkType.Data.toByte :: u32be (3 + ADDITIONAL_BYTES))
      ++ (encMsg [7, 8, 9] ++ [1, 2])
    rawName := "a.001"
    fs := fun _ => none
    volumeCounter := none
    manifest := none }

def vol2bytes0 : List Nat :=
  encMsg (ChunkType.Data.toByte :: u32be (3 + ADDITIONAL_BYTES)) ++ (encMsg [9, 9, 9] ++ [])

def c7reader : ArchiveReader :=
  { input := encMsg (ChunkType.VolumeEnd.toByte :: u32be (0 + ADDITIONAL_BYTES))
      ++ (encMsg [] ++ [])
    rawName := "a.001"
    fs := fun s => if s = "a.002" then some vol2bytes0 else none
    volumeCounter := none
    manifest := none }

/-- Driving the writer over a list of raw chunks. -/
def runChunks : ArchiveWriter → List (ChunkType × List Nat) → WRes ArchiveWriter
  | w, [] => .ok w
  | w, (t, data) :: rest =>
    match writeChunk w data t with
    | .ok w' => runChunks w' rest
    | .err w' => .err w'
    | .panicked => .panicked

/-- The volume-budget invariant: the open volume still has room for one
maximal allowance plus the safety margin, the byte counter tracks the open
file exactly, and every closed volume fits the budget. -/
def volInv (V : Nat) (w : ArchiveWriter) : Prop :=
  w.byteCount + extraSize + 4096 ≤ V ∧
    w.current.length = w.byteCount ∧
    (∀ vol ∈ w.closedVolumes, vol.length ≤ V) ∧
    w.volumeSize = some V ∧
    w.sinkOk = true

def c8run : WRes ArchiveWriter :=
  runChunks (ArchiveWriter.new salt0 header0 (some 4200) true)
    [(ChunkType.Data, List.replicate 4200 7), (ChunkType.Data, [])]

def c8ops0 : List (ChunkType × List Nat) :=
  [(ChunkType.Data, List.replicate 600 1), (ChunkType.Data, List.replicate 600 1)]

def c8w' : ArchiveWriter :=
  match runChunks (ArchiveWriter.new salt0 header0 (some 6000) true) c8ops0 with
  | .ok w => w
  | _ => baseWriter

def buf0 : Buffer := Buffer.withCapacity 4

/-!
## Theorems
-/

theorem ChunkType.fromByte_toByte (t : ChunkType) : ChunkType.fromByte t.toByte = some t := by
  cases t <;> rfl

theorem readU32be_u32be (n : Nat) (h : n < 2 ^ 32) : readU32be (u32be n) = n := by
  simp only [u32be, readU32be, List.headD, List.drop]
  omega

theorem length_u32be (n : Nat) : (u32be n).length = 4 := rfl

theorem length_encMsg (m : List Nat) : (encMsg m).length = m.length + ADDITIONAL_BYTES := by
  simp [encMsg]

theorem pullMsg_encMsg (m : List Nat) : pullMsg (encMsg m) = some m := by
  simp [pullMsg, encMsg]

theorem writeChunkUnchecked_ok_eq {w : ArchiveWriter} {data : List Nat} {t : ChunkType}
    (hs : w.sinkOk = true) (hl : data.length + ADDITIONAL_BYTES < 2 ^ 32) :
    writeChunkUnchecked w data t =
      .ok ({ w with
              msgs := w.msgs ++ [t.toByte :: u32be (data.length + ADDITIONAL_BYTES), data]
              current := w.current ++ encMsg (t.toByte :: u32be (data.length + ADDITIONAL_BYTES))
                ++ encMsg data
              chunks := w.chunks ++ [(t, data)] },
            (5 + ADDITIONAL_BYTES) + (data.length + ADDITIONAL_BYTES)) := by
  simp only [writeChunkUnchecked, Nat.mod_eq_of_lt hl, hs, if_true]
  rw [if_neg (by omega)]

theorem writeChunkUnchecked_ok_inv {w : ArchiveWriter} {data : List Nat} {t : ChunkType}
    {w' : ArchiveWriter} {n : Nat}
    (h : writeChunkUnchecked w data t = .ok (w', n)) :
    w'.objects = w.objects ∧ w'.ended = w.ended ∧ w'.sinkOk = w.sinkOk ∧
      w'.volumeSize = w.volumeSize ∧ w'.chunks = w.chunks ++ [(t, data)] ∧
      w'.closedVolumes = w.closedVolumes ∧ w'.byteCount = w.byteCount ∧
      w'.current.length = w.current.length + chunkSize data.length ∧
      n = chunkSize data.length ∧ w'.volumeCounter = w.volumeCounter := by
  simp only [writeChunkUnchecked] at h
  split at h
  · exact absurd h (by simp)
  · split at h
    · injection h with h'
      injection h' with h1 h2
      subst h1 h2
      refine ⟨rfl, rfl, rfl, rfl, rfl, rfl, rfl, ?_, by simp [chunkSize]; omega, rfl⟩
      simp [length_encMsg, chunkSize, length_u32be]
      omega
    · exact absurd h (by simp)

theorem writeChunkCounted_ok_inv {w : ArchiveWriter} {data : List Nat} {t : ChunkType}
    {w' : ArchiveWriter}
    (h : writeChunkCounted w data t = .ok w') :
    w'.objects = w.objects ∧ w'.ended = w.ended ∧ w'.sinkOk = w.sinkOk ∧
      w'.volumeSize = w.volumeSize ∧ w'.chunks = w.chunks ++ [(t, data)] ∧
      w'.closedVolumes = w.closedVolumes ∧
      w'.byteCount = w.byteCount + chunkSize data.length ∧
      w'.current.length = w.current.length + chunkSize data.length ∧
      w'.volumeCounter = w.volumeCounter := by
  unfold writeChunkCounted at h
  split at h
  · exact absurd h (by simp)
  · exact absurd h (by simp)
  · rename_i w3 n heq
    injection h with h'
    subst h'
    obtain ⟨o, e, s, v, c, cv, bc, cur, hn, vc⟩ := writeChunkUnchecked_ok_inv heq
    exact ⟨o, e, s, v, c, cv, by rw [bc, hn], cur, vc⟩

theorem writeChunk_ok_inv {w : ArchiveWriter} {data : List Nat} {t : ChunkType}
    {w' : ArchiveWriter}
    (h : writeChunk w data t = .ok w') :
    w'.objects = w.objects ∧ w'.ended = w.ended ∧ w'.sinkOk = w.sinkOk ∧
      w'.volumeSize = w.volumeSize ∧
      (w'.chunks = w.chunks ++ [(t, data)] ∨
        w'.chunks = w.chunks ++ [(ChunkType.VolumeEnd, [])] ++ [(t, data)]) := by
  unfold writeChunk at h
  split at h
  · split at h
    · exact absurd h (by simp)
    · exact absurd h (by simp)
    · rename_i wmid nmid hmid
      obtain ⟨o1, e1, s1, v1, c1, _⟩ := writeChunkUnchecked_ok_inv hmid
      obtain ⟨o2, e2, s2, v2, c2, _⟩ := writeChunkCounted_ok_inv h
      refine ⟨by simp [o2, rotateVolume, o1], by simp [e2, rotateVolume, e1],
        by simp [s2, rotateVolume, s1], by simp [v2, rotateVolume, v1], Or.inr ?_⟩
      simp [c2, rotateVolume, c1]
  · obtain ⟨o2, e2, s2, v2, c2, _⟩ := writeChunkCounted_ok_inv h
    exact ⟨o2, e2, s2, v2, Or.inl c2⟩

theorem writeChunk_payloadChunks {w : ArchiveWriter} {data : List Nat} {t : ChunkType}
    {w' : ArchiveWriter}
    (h : writeChunk w data t = .ok w') (ht : t ≠ ChunkType.VolumeEnd) :
    payloadChunks w' = payloadChunks w ++ [(t, data)] := by
  rcases (writeChunk_ok_inv h).2.2.2.2 with hc | hc <;>
    simp [payloadChunks, hc, List.filter_append, ht]

theorem endWriter_of_ended {w : ArchiveWriter} (h : w.ended = true) :
    endWriter w = .ok w := by
  simp [endWriter, h]

theorem endWriter_ok_ended {w w' : ArchiveWriter} (h : endWriter w = .ok w') :
    w'.ended = true := by
  unfold endWriter at h
  split at h
  · rename_i hw
    injection h with h'
    subst h'
    assumption
  · split at h
    · exact absurd h (by simp)
    · exact absurd h (by simp)
    · rename_i w2 heq
      injection h with h'
      subst h'
      exact (writeChunk_ok_inv heq).2.1

theorem endWriter_ok_payload {w w' : ArchiveWriter} (he : w.ended = false)
    (h : endWriter w = .ok w') :
    payloadChunks w' = payloadChunks w
      ++ [(ChunkType.End, encodeJson (serializeManifest ⟨w.objects⟩))] := by
  unfold endWriter at h
  rw [if_neg (by simp [he])] at h
  split at h
  · exact absurd h (by simp)
  · exact absurd h (by simp)
  · rename_i w2 heq
    injection h with h'
    subst h'
    exact writeChunk_payloadChunks (w := { w with ended := true }) heq (by simp)

/-- C5: end() is idempotent: a writer that has already ended is left
untouched by end() and by drop; a successful end() marks the writer ended
and appends exactly one End chunk carrying the manifest, and a second
end() or a drop after it emits nothing further. -/
theorem c5_end_idempotent (w : ArchiveWriter) :
    (w.ended = true → endWriter w = .ok w) ∧
    (∀ w', endWriter w = .ok w' →
      w'.ended = true ∧ endWriter w' = .ok w' ∧ dropWriter w' = .ok w') ∧
    (w.ended = false → ∀ w', endWriter w = .ok w' →
      payloadChunks w' = payloadChunks w
        ++ [(ChunkType.End, encodeJson (serializeManifest ⟨w.objects⟩))]) := by
  refine ⟨endWriter_of_ended, fun w' h => ?_, fun he w' h => endWriter_ok_payload he h⟩
  have hend := endWriter_ok_ended h
  have h2 := endWriter_of_ended hend
  exact ⟨hend, h2, by simp [dropWriter, h2]⟩

theorem writeChunkUnchecked_sinkFail {w : ArchiveWriter} {data : List Nat} {t : ChunkType}
    (hs : w.sinkOk = false) (x : ArchiveWriter × Nat) :
    writeChunkUnchecked w data t ≠ .ok x := by
  intro h
  simp only [writeChunkUnchecked] at h
  split at h
  · exact absurd h (by simp)
  · rw [hs] at h
    exact absurd h (by simp)

theorem writeChunk_sinkFail {w : ArchiveWriter} {data : List Nat} {t : ChunkType}
    (hs : w.sinkOk = false) (x : ArchiveWriter) :
    writeChunk w data t ≠ .ok x := by
  intro h
  unfold writeChunk at h
  split at h
  · split at h
    · exact absurd h (by simp)
    · exact absurd h (by simp)
    · rename_i wmid nmid hmid
      exact writeChunkUnchecked_sinkFail hs _ hmid
  · unfold writeChunkCounted at h
    split at h
    · exact absurd h (by simp)
    · exact absurd h (by simp)
    · rename_i w3 n heq
      exact writeChunkUnchecked_sinkFail hs _ heq

theorem writeObjectLoop_ok_inv {CState : Type}
    {compress : CState → List Nat → CState × List Nat}
    {reads : List (List Nat)} {w : ArchiveWriter} {c : CState} {acc : List Nat} {size : Nat}
    {w' : ArchiveWriter} {c' : CState} {acc' : List Nat} {size' : Nat}
    (h : writeObjectLoop compress w c acc size reads = .ok (w', c', acc', size')) :
    acc' = acc ++ (consumedReads reads).flatten ∧
      size' = size + objectSize reads ∧
      c' = finalCState compress c (consumedReads reads) ∧
      w'.objects = w.objects ∧ w'.ended = w.ended ∧ w'.sinkOk = w.sinkOk ∧
      w'.volumeSize = w.volumeSize ∧
      payloadChunks w' = payloadChunks w ++
        ((compressOuts compress c (consumedReads reads)).filter
          (fun o => decide (o ≠ []))).map (fun o => (ChunkType.Data, o)) := by
  induction reads generalizing w c acc size with
  | nil =>
    simp only [writeObjectLoop] at h
    injection h with h'
    injection h' with h1 h'
    injection h' with h2 h'
    injection h' with h3 h4
    subst h1 h2 h3 h4
    simp [consumedReads, objectSize, compressOuts, finalCState]
  | cons r rest ih =>
    simp only [writeObjectLoop] at h
    by_cases hr : r = []
    · rw [if_pos hr] at h
      injection h with h'
      injection h' with h1 h'
      injection h' with h2 h'
      injection h' with h3 h4
      subst h1 h2 h3 h4
      simp [consumedReads, hr, objectSize, compressOuts, finalCState]
    · rw [if_neg hr] at h
      have hcr : consumedReads (r :: rest) = r :: consumedReads rest := by
        simp [consumedReads, hr]
      by_cases hout : (compress c r).2 = []
      · rw [if_pos hout] at h
        obtain ⟨ha, hs, hc, ho, he, hsk, hv, hp⟩ := ih h
        refine ⟨by simp [ha, hcr], by simp [hs, hcr, objectSize, consumedReads, hr]; ring,
          by simp [hc, hcr, finalCState], ho, he, hsk, hv, ?_⟩
        simp [hp, hcr, compressOuts, hout]
      · rw [if_neg hout] at h
        split at h
        · exact absurd h (by simp)
        · exact absurd h (by simp)
        · rename_i w1 heq
          obtain ⟨ha, hs, hc, ho, he, hsk, hv, hp⟩ := ih h
          obtain ⟨o1, e1, s1, v1, _⟩ := writeChunk_ok_inv heq
          refine ⟨by simp [ha, hcr], by simp [hs, hcr, objectSize, consumedReads, hr]; ring,
            by simp [hc, hcr, finalCState], by rw [ho, o1], by rw [he, e1],
            by rw [hsk, s1], by rw [hv, v1], ?_⟩
          rw [hp, writeChunk_payloadChunks heq (by simp)]
          simp [hcr, compressOuts, hout]

theorem payloadChunks_objects (w : ArchiveWriter) (os : List ObjectInfo) :
    payloadChunks { w with objects := os } = payloadChunks w := rfl

theorem writeObject_dir_ok_inv {CState : Type}
    {compress : CState → List Nat → CState × List Nat} {cfinish : CState → List Nat}
    {c0 : CState} {hashFn : List Nat → List Nat}
    {w : ArchiveWriter} {info : ObjectInfo} {reads : List (List Nat)} {w' : ArchiveWriter}
    (hd : info.object_type = .Directory)
    (h : writeObject compress cfinish c0 hashFn w info reads = .ok w') :
    w'.objects = w.objects ∧ w'.ended = w.ended ∧ w'.sinkOk = w.sinkOk ∧
      w'.volumeSize = w.volumeSize ∧
      payloadChunks w' = payloadChunks w
        ++ [(ChunkType.Header, encodeJson (serializeObjectInfo info))] := by
  unfold writeObject at h
  split at h
  · exact absurd h (by simp)
  · exact absurd h (by simp)
  · rename_i w1 heq
    rw [if_pos hd] at h
    injection h with h'
    subst h'
    obtain ⟨o, e, s, v, _⟩ := writeChunk_ok_inv heq
    exact ⟨o, e, s, v, writeChunk_payloadChunks heq (by simp)⟩

theorem writeObject_file_ok_inv {CState : Type}
    {compress : CState → List Nat → CState × List Nat} {cfinish : CState → List Nat}
    {c0 : CState} {hashFn : List Nat → List Nat}
    {w : ArchiveWriter} {info : ObjectInfo} {reads : List (List Nat)} {w' : ArchiveWriter}
    (hf : info.object_type = .File)
    (h : writeObject compress cfinish c0 hashFn w info reads = .ok w') :
    w'.objects = w.objects ++ [{ info with epilogue := some (objectEpilogueOf hashFn reads) }] ∧
      w'.ended = w.ended ∧ w'.sinkOk = w.sinkOk ∧ w'.volumeSize = w.volumeSize ∧
      payloadChunks w' = payloadChunks w
        ++ [(ChunkType.Header, encodeJson (serializeObjectInfo info))]
        ++ ((compressOuts compress c0 (consumedReads reads)).filter
            (fun o => decide (o ≠ []))).map (fun o => (ChunkType.Data, o))
        ++ [(ChunkType.Data, cfinish (finalCState compress c0 (consumedReads reads)))]
        ++ [(ChunkType.Epilogue,
              encodeJson (serializeEpilogue (objectEpilogueOf hashFn reads)))] := by
  unfold writeObject at h
  split at h
  · exact absurd h (by simp)
  · exact absurd h (by simp)
  · rename_i w1 hhdr
    rw [if_neg (by rw [hf]; intro hcon; exact absurd hcon (by simp))] at h
    split at h
    · exact absurd h (by simp)
    · exact absurd h (by simp)
    · rename_i res w2 c2 acc2 size2 hloop
      split at h
      · exact absurd h (by simp)
      · exact absurd h (by simp)
      · rename_i w3 hfin
        split at h
        · exact absurd h (by simp)
        · exact absurd h (by simp)
        · rename_i w4 hepi
          injection h with h'
          subst h'
          obtain ⟨hacc, hsize, hcst, ho2, he2, hs2, hv2, hp2⟩ := writeObjectLoop_ok_inv hloop
          obtain ⟨oh, eh, sh, vh, _⟩ := writeChunk_ok_inv hhdr
          obtain ⟨o3, e3, s3, v3, _⟩ := writeChunk_ok_inv hfin
          obtain ⟨o4, e4, s4, v4, _⟩ := writeChunk_ok_inv hepi
          have hepiv : (⟨size2, toHex (hashFn acc2)⟩ : ObjectEpilogue) =
              objectEpilogueOf hashFn reads := by
            simp [objectEpilogueOf, hacc, hsize]
          constructor
          · simp only [o4, o3, ho2, oh]
            rw [hepiv]
          refine ⟨by simp [e4, e3, he2, eh], by simp [s4, s3, hs2, sh],
            by simp [v4, v3, hv2, vh], ?_⟩
          rw [payloadChunks_objects, writeChunk_payloadChunks hepi (by simp),
            writeChunk_payloadChunks hfin (by simp), hp2,
            writeChunk_payloadChunks hhdr (by simp), hcst, hepiv]

/-- C2 (amended): the manifest accumulated over any run of write_object
calls lists, in order, exactly the file objects that completed, each with
its epilogue inlined in memory; directory objects are omitted by the early
return.  When the writer had not ended, a successful end() then writes
exactly one End chunk whose payload serializes that manifest. -/
theorem c2_manifest_lists_file_objects {CState : Type}
    (compress : CState → List Nat → CState × List Nat) (cfinish : CState → List Nat)
    (c0 : CState) (hashFn : List Nat → List Nat)
    (w : ArchiveWriter) (ops : List (ObjectInfo × List (List Nat))) (w' : ArchiveWriter)
    (h : runObjects compress cfinish c0 hashFn w ops = .ok w') :
    w'.objects = w.objects ++ manifestObjects hashFn ops ∧
      w'.ended = w.ended ∧
      (w'.ended = false → ∀ w'', endWriter w' = .ok w'' →
        payloadChunks w'' = payloadChunks w'
          ++ [(ChunkType.End, encodeJson (serializeManifest ⟨w'.objects⟩))]) := by
  induction ops generalizing w with
  | nil =>
    simp only [runObjects] at h
    injection h with h'
    subst h'
    exact ⟨by simp [manifestObjects], rfl, fun he w'' h2 => endWriter_ok_payload he h2⟩
  | cons op rest ih =>
    rcases op with ⟨i, reads⟩
    simp only [runObjects] at h
    split at h
    · rename_i w1 heq
      obtain ⟨hobs, hend, hrest⟩ := ih w1 h
      cases hobj : i.object_type with
      | Directory =>
        obtain ⟨o1, e1, _⟩ := writeObject_dir_ok_inv hobj heq
        exact ⟨by simp [hobs, o1, manifestObjects, hobj], by rw [hend, e1], hrest⟩
      | File =>
        obtain ⟨o1, e1, _⟩ := writeObject_file_ok_inv hobj heq
        refine ⟨?_, by rw [hend, e1], hrest⟩
        rw [hobs, o1]
        simp [manifestObjects, hobj]
    · exact absurd h (by simp)
    · exact absurd h (by simp)

/-- C9: for every file object, the chunks emitted are the Header, one
Data chunk per non-empty compressor output of the read loop, then —
unconditionally, even when it is empty — a Data chunk with the
compressor's finish() tail, then the Epilogue; so at least one Data chunk
precedes the Epilogue. -/
theorem c9_file_chunk_sequence {CState : Type}
    (compress : CState → List Nat → CState × List Nat) (cfinish : CState → List Nat)
    (c0 : CState) (hashFn : List Nat → List Nat)
    (w : ArchiveWriter) (info : ObjectInfo) (reads : List (List Nat)) (w' : ArchiveWriter)
    (hf : info.object_type = .File)
    (h : writeObject compress cfinish c0 hashFn w info reads = .ok w') :
    payloadChunks w' = payloadChunks w
      ++ [(ChunkType.Header, encodeJson (serializeObjectInfo info))]
      ++ ((compressOuts compress c0 (consumedReads reads)).filter
          (fun o => decide (o ≠ []))).map (fun o => (ChunkType.Data, o))
      ++ [(ChunkType.Data, cfinish (finalCState compress c0 (consumedReads reads)))]
      ++ [(ChunkType.Epilogue,
            encodeJson (serializeEpilogue (objectEpilogueOf hashFn reads)))] :=
  (writeObject_file_ok_inv hf h).2.2.2.2

/-- C4 (amended): the drop path does not swallow errors — drop after a
completed end() emits nothing and cannot panic, but dropping a never-ended
writer whose sink fails panics, because Drop unwraps the end() result. -/
theorem c4_drop_panics_on_error (w : ArchiveWriter) :
    (w.ended = true → dropWriter w = .ok w) ∧
    (w.ended = false → w.sinkOk = false → dropWriter w = .panicked) := by
  constructor
  · intro h
    simp [dropWriter, endWriter_of_ended h]
  · intro he hs
    unfold dropWriter endWriter
    rw [if_neg (by simp [he])]
    have hs' : ({ w with ended := true } : ArchiveWriter).sinkOk = false := hs
    cases heq : writeChunk { w with ended := true }
        (encodeJson (serializeManifest ⟨w.objects⟩)) ChunkType.End with
    | ok w2 => exact absurd heq (writeChunk_sinkFail hs' w2)
    | err w2 => rfl
    | panicked => rfl

/-- C2 counterexample: writing a single directory object and ending the
archive yields a manifest listing no objects at all — the directory's
descriptor is absent, contradicting the claim that the manifest lists every
object written, directories included. -/
theorem c2_counterexample :
    (match c2cexRun with
      | WRes.ok w => some (w.chunks.map Prod.fst, w.objects)
      | _ => none) = some ([ChunkType.Header, ChunkType.End], []) ∧
    (match c2cexRun with
      | WRes.ok w => w.chunks.getLast?
      | _ => none) = some (ChunkType.End, encodeJson (serializeManifest ⟨[]⟩)) ∧
    encodeJson (serializeManifest ⟨[]⟩) ≠ encodeJson (serializeManifest ⟨[dirInfo0]⟩) := by
  decide

/-- C2 witness: the amended theorem applied to a concrete directory-file
run. -/
theorem c2_witness :
    c2w'.objects = baseWriter.objects ++ manifestObjects idHash c2ops :=
  (c2_manifest_lists_file_objects idCompress emptyFinish () idHash baseWriter c2ops c2w'
    (by decide)).1

/-- C3 counterexample: a completed file object carries its epilogue in
memory, yet the manifest chunk written by end() serializes it without any
"epilogue" field. -/
theorem c3_counterexample :
    (match endWriter c3mid with
      | WRes.ok w => w.chunks.getLast?
      | _ => none) = some (ChunkType.End, encodeJson (serializeManifest ⟨[c3done]⟩)) ∧
    c3done.object_type = ObjectType.File ∧
    c3done.epilogue = some ⟨2, "6869"⟩ ∧
    (serializeObjectInfo c3done).field "epilogue" = none := by
  decide

/-- C3 (amended): the serialized object descriptor never carries an
epilogue field (the `#[serde(skip)]` attribute excludes it), so manifest
entries have no inlined epilogues; the size and hash travel only in the
separate Epilogue chunk's own JSON. -/
theorem c3_epilogue_not_in_descriptor_json (info : ObjectInfo) (e : ObjectEpilogue) :
    (serializeObjectInfo info).field "epilogue" = none ∧
    (serializeEpilogue e).field "size" = some (.num e.size) ∧
    (serializeEpilogue e).field "hash" = some (.str e.hash) ∧
    serializeManifest ⟨[info]⟩ =
      .obj (.cons "objects" (.arr (.cons (serializeObjectInfo info) .nil)) .nil) := by
  refine ⟨?_, ?_, ?_, rfl⟩ <;>
    simp [serializeObjectInfo, serializeEpilogue, JsonValue.field, jsonLookup]

/-- C4 counterexample: dropping a never-ended writer whose sink fails
panics (the drop path unwraps the end() error). -/
theorem c4_counterexample :
    dropWriter (ArchiveWriter.new salt0 header0 none false) = .panicked := by
  decide

/-- C4 witness: the amended theorem applied to an ended writer and to a
failing-sink writer. -/
theorem c4_witness :
    dropWriter endedWriter = .ok endedWriter ∧
      dropWriter { baseWriter with sinkOk := false } = .panicked :=
  ⟨(c4_drop_panics_on_error endedWriter).1 rfl,
    (c4_drop_panics_on_error { baseWriter with sinkOk := false }).2 rfl rfl⟩

/-- C5 witness: C5 applied to a freshly constructed writer. -/
theorem c5_witness :
    c5w'.ended = true ∧ endWriter c5w' = .ok c5w' ∧ dropWriter c5w' = .ok c5w' :=
  (c5_end_idempotent baseWriter).2.1 c5w' (by decide)

/-- C9 witness: C9 applied to a concrete single-read file object. -/
theorem c9_witness :
    payloadChunks c9w' = payloadChunks baseWriter
      ++ [(ChunkType.Header, encodeJson (serializeObjectInfo fileInfo0))]
      ++ ((compressOuts idCompress () (consumedReads [[104, 105]])).filter
          (fun o => decide (o ≠ []))).map (fun o => (ChunkType.Data, o))
      ++ [(ChunkType.Data, emptyFinish (finalCState idCompress () (consumedReads [[104, 105]])))]
      ++ [(ChunkType.Epilogue,
            encodeJson (serializeEpilogue (objectEpilogueOf idHash [[104, 105]])))] :=
  c9_file_chunk_sequence idCompress emptyFinish () idHash baseWriter fileInfo0 [[104, 105]] c9w'
    (by decide) (by decide)

theorem readChunk_frame {r : ArchiveReader} {t : ChunkType} {data rest : List Nat} {fuel : Nat}
    (hl : data.length + ADDITIONAL_BYTES < 2 ^ 32)
    (hin : r.input =
      encMsg (t.toByte :: u32be (data.length + ADDITIONAL_BYTES)) ++ (encMsg data ++ rest)) :
    readChunk (fuel + 1) r =
      if t = ChunkType.VolumeEnd then
        match openNextVolume { r with input := rest } with
        | .err => .err
        | .panicked => .panicked
        | .ok r' => readChunk fuel r'
      else .ok (t, data, { r with input := rest }) := by
  have hilen : (encMsg (t.toByte :: u32be (data.length + ADDITIONAL_BYTES))).length =
      1 + 4 + ADDITIONAL_BYTES := by
    simp [length_encMsg, length_u32be]
  have hdlen : (encMsg data).length = data.length + ADDITIONAL_BYTES := length_encMsg data
  have hre1 : readExact
      (encMsg (t.toByte :: u32be (data.length + ADDITIONAL_BYTES)) ++ (encMsg data ++ rest))
      (1 + 4 + ADDITIONAL_BYTES) =
      some (encMsg (t.toByte :: u32be (data.length + ADDITIONAL_BYTES)), encMsg data ++ rest) := by
    unfold readExact
    rw [if_pos (by simp [hilen]), List.take_left' hilen, List.drop_left' hilen]
  have hre2 : readExact (encMsg data ++ rest) (data.length + ADDITIONAL_BYTES) =
      some (encMsg data, rest) := by
    unfold readExact
    rw [if_pos (by simp [hdlen]), List.take_left' hdlen, List.drop_left' hdlen]
  simp only [readChunk, hin, hre1, pullMsg_encMsg, List.headD, ChunkType.fromByte_toByte,
    List.drop, readU32be_u32be (data.length + ADDITIONAL_BYTES) hl, hre2]

/-- C1: write_chunk_unchecked pushes exactly two messages through the
secret stream — a 5-byte info plaintext whose byte 0 is the chunk kind and
whose bytes 1..5 are the big-endian u32 payload-ciphertext length
len(payload) + ADDITIONAL_BYTES — followed by the payload, writing both
ciphertexts to the file; read_chunk reads and decrypts exactly
5 + ADDITIONAL_BYTES info bytes and then exactly ciphertext_length bytes,
returning the kind and decrypted payload. -/
theorem c1_two_records_per_chunk :
    (∀ (w : ArchiveWriter) (data : List Nat) (t : ChunkType),
      w.sinkOk = true → data.length + ADDITIONAL_BYTES < 2 ^ 32 →
      writeChunkUnchecked w data t =
        .ok ({ w with
                msgs := w.msgs ++ [t.toByte :: u32be (data.length + ADDITIONAL_BYTES), data]
                current := w.current
                  ++ encMsg (t.toByte :: u32be (data.length + ADDITIONAL_BYTES))
                  ++ encMsg data
                chunks := w.chunks ++ [(t, data)] },
              (5 + ADDITIONAL_BYTES) + (data.length + ADDITIONAL_BYTES)) ∧
        (t.toByte :: u32be (data.length + ADDITIONAL_BYTES)).length = 5 ∧
        (encMsg (t.toByte :: u32be (data.length + ADDITIONAL_BYTES))).length =
          5 + ADDITIONAL_BYTES ∧
        (encMsg data).length = data.length + ADDITIONAL_BYTES) ∧
    (∀ (r : ArchiveReader) (t : ChunkType) (data rest : List Nat) (fuel : Nat),
      t ≠ ChunkType.VolumeEnd → data.length + ADDITIONAL_BYTES < 2 ^ 32 →
      r.input = encMsg (t.toByte :: u32be (data.length + ADDITIONAL_BYTES))
        ++ (encMsg data ++ rest) →
      readChunk (fuel + 1) r = .ok (t, data, { r with input := rest })) := by
  constructor
  · intro w data t hs hl
    exact ⟨writeChunkUnchecked_ok_eq hs hl, by simp [length_u32be],
      by simp [length_encMsg, length_u32be], length_encMsg data⟩
  · intro r t data rest fuel ht hl hin
    rw [readChunk_frame hl hin, if_neg ht]

/-- C7: read_chunk never returns a VolumeEnd chunk to its caller; when
the decrypted kind is VolumeEnd it opens the next volume — derived from
the mandatory ".001" suffix of the opened name and the incremented
three-digit counter — and transparently recurses into read_chunk. -/
theorem c7_volume_end_intercepted :
    (∀ (fuel : Nat) (r : ArchiveReader) (t : ChunkType) (p : List Nat) (r' : ArchiveReader),
      readChunk fuel r = .ok (t, p, r') → t ≠ ChunkType.VolumeEnd) ∧
    (∀ (fuel : Nat) (r : ArchiveReader) (data rest content : List Nat),
      data.length + ADDITIONAL_BYTES < 2 ^ 32 →
      r.input = encMsg (ChunkType.VolumeEnd.toByte :: u32be (data.length + ADDITIONAL_BYTES))
        ++ (encMsg data ++ rest) →
      endsWith001 r.rawName = true →
      r.fs ((r.rawName.dropRight 4) ++ "."
        ++ pad3 ((match r.volumeCounter with | none => 1 | some c => c) + 1)) = some content →
      readChunk (fuel + 1) r =
        readChunk fuel { r with
          input := content
          volumeCounter := some ((match r.volumeCounter with | none => 1 | some c => c) + 1) }) := by
  constructor
  · intro fuel
    induction fuel with
    | zero =>
      intro r t p r' h
      exact absurd h (by simp [readChunk])
    | succ fuel ih =>
      intro r t p r' h
      simp only [readChunk] at h
      split at h
      · exact absurd h (by simp)
      · split at h
        · exact absurd h (by simp)
        · split at h
          · exact absurd h (by simp)
          · split at h
            · exact absurd h (by simp)
            · split at h
              · exact absurd h (by simp)
              · split at h
                · split at h
                  · exact absurd h (by simp)
                  · exact absurd h (by simp)
                  · exact ih _ _ _ _ h
                · rename_i hne
                  injection h with h'
                  injection h' with h1 h2
                  subst h1
                  exact hne
  · intro fuel r data rest content hl hin h001 hfs
    rw [readChunk_frame hl hin, if_pos rfl]
    unfold openNextVolume
    rw [if_pos h001]
    simp only [hfs]

/-- C6 (amended): read_object performs no chunk-kind check besides End:
any other chunk — Data and Epilogue included — is treated as a Header, its
payload parsed as an object descriptor; a payload that does not parse
panics the process (serde unwrap) instead of returning a framing error. -/
theorem c6_read_object_no_kind_check (fuel : Nat) (r : ArchiveReader) (t : ChunkType)
    (data rest : List Nat)
    (htE : t ≠ ChunkType.End) (htV : t ≠ ChunkType.VolumeEnd)
    (hl : data.length + ADDITIONAL_BYTES < 2 ^ 32)
    (hin : r.input = encMsg (t.toByte :: u32be (data.length + ADDITIONAL_BYTES))
      ++ (encMsg data ++ rest)) :
    readObject (fuel + 1) r =
      match (jsonFromBytes data).bind deserializeObjectInfo with
      | none => .panicked
      | some inf => .ok ({ r with input := rest }, some inf) := by
  unfold readObject
  rw [readChunk_frame hl hin, if_neg htV]
  simp only [if_neg htE]

/-- C6 counterexample: read_object on a stream whose next chunk is an
Epilogue panics (unwrap of the failed descriptor parse) instead of
returning a framing error. -/
theorem c6_counterexample : readObject 5 c6reader = .panicked := by
  rfl

/-- C6 witness: the amended C6 theorem applied to a Header chunk with a
well-formed descriptor payload. -/
theorem c6_witness :
    readObject 5 c6okReader =
      match (jsonFromBytes hdrPayload0).bind deserializeObjectInfo with
      | none => .panicked
      | some inf => .ok ({ c6okReader with input := [] }, some inf) :=
  c6_read_object_no_kind_check 4 c6okReader ChunkType.Header hdrPayload0 []
    (by decide) (by decide) (by decide) rfl

/-- C1 witness: both halves of C1 applied to a concrete Data chunk. -/
theorem c1_witness :
    writeChunkUnchecked baseWriter [7, 8, 9] ChunkType.Data =
      .ok ({ baseWriter with
              msgs := baseWriter.msgs
                ++ [ChunkType.Data.toByte :: u32be (3 + ADDITIONAL_BYTES), [7, 8, 9]]
              current := baseWriter.current
                ++ encMsg (ChunkType.Data.toByte :: u32be (3 + ADDITIONAL_BYTES))
                ++ encMsg [7, 8, 9]
              chunks := baseWriter.chunks ++ [(ChunkType.Data, [7, 8, 9])] },
            (5 + ADDITIONAL_BYTES) + (3 + ADDITIONAL_BYTES)) ∧
      readChunk 1 c1reader = .ok (ChunkType.Data, [7, 8, 9], { c1reader with input := [1, 2] }) :=
  ⟨(c1_two_records_per_chunk.1 baseWriter [7, 8, 9] ChunkType.Data rfl (by decide)).1,
    c1_two_records_per_chunk.2 c1reader ChunkType.Data [7, 8, 9] [1, 2] 0
      (by decide) (by decide) rfl⟩

/-- C7 witness: both halves of C7 applied to a concrete two-volume
stream. -/
theorem c7_witness :
    (ChunkType.Data ≠ ChunkType.VolumeEnd) ∧
      readChunk 2 c7reader =
        readChunk 1 { c7reader with input := vol2bytes0, volumeCounter := some 2 } :=
  ⟨c7_volume_end_intercepted.1 1 { c7reader with input := vol2bytes0, volumeCounter := some 2 }
      ChunkType.Data [9, 9, 9] { c7reader with input := [], volumeCounter := some 2 } (by rfl),
    c7_volume_end_intercepted.2 1 c7reader [] [] vol2bytes0 (by decide) rfl (by decide) (by rfl)⟩

theorem writeChunk_volInv {V : Nat} {w : ArchiveWriter} {data : List Nat} {t : ChunkType}
    {w' : ArchiveWriter}
    (hV : V < 2 ^ 63) (hd : chunkSize data.length + extraSize + 4096 ≤ V)
    (hinv : volInv V w) (h : writeChunk w data t = .ok w') : volInv V w' := by
  obtain ⟨h1, h2, h3, h4, h5⟩ := hinv
  have hdl : data.length + ADDITIONAL_BYTES < 2 ^ 32 := by
    by_contra hc
    rw [Nat.not_lt] at hc
    unfold writeChunk at h
    have hpan : ∀ x, writeChunkUnchecked w data t ≠ WRes.ok x := by
      intro x hcon
      simp only [writeChunkUnchecked] at hcon
      rw [if_pos (by omega)] at hcon
      exact absurd hcon (by simp)
    split at h
    · split at h
      · exact absurd h (by simp)
      · exact absurd h (by simp)
      · rename_i wmid nmid hmid
        obtain ⟨_, _, hsmid, _⟩ := writeChunkUnchecked_ok_inv hmid
        unfold writeChunkCounted at h
        split at h
        · exact absurd h (by simp)
        · exact absurd h (by simp)
        · rename_i w3 n3 hfin
          simp only [writeChunkUnchecked] at hfin
          rw [if_pos (by omega)] at hfin
          exact absurd hfin (by simp)
    · unfold writeChunkCounted at h
      split at h
      · exact absurd h (by simp)
      · exact absurd h (by simp)
      · rename_i w3 n3 hfin
        simp only [writeChunkUnchecked] at hfin
        rw [if_pos (by omega)] at hfin
        exact absurd hfin (by simp)
  have hrot : rotateNeeded w.byteCount data.length V =
      decide (V - 4096 < w.byteCount + chunkSize data.length + extraSize) := by
    unfold rotateNeeded
    rw [decide_eq_decide]
    have hm1 : (w.byteCount + chunkSize data.length + extraSize) % 2 ^ 64 =
        w.byteCount + chunkSize data.length + extraSize := by
      apply Nat.mod_eq_of_lt
      unfold chunkSize extraSize ADDITIONAL_BYTES at *
      omega
    have hm2 : (V + 2 ^ 64 - 4 * 1024) % 2 ^ 64 = V - 4096 := by
      unfold extraSize at h1
      omega
    rw [hm1, hm2]
  unfold writeChunk at h
  rw [h4] at h
  simp only [hrot] at h
  by_cases hcmp : V - 4096 < w.byteCount + chunkSize data.length + extraSize
  · rw [if_pos (by simpa using hcmp)] at h
    split at h
    · exact absurd h (by simp)
    · exact absurd h (by simp)
    · rename_i wmid nmid hmid
      rw [writeChunkUnchecked_ok_eq h5 (by simp [ADDITIONAL_BYTES])] at hmid
      injection hmid with hmid'
      injection hmid' with hw hn
      subst hw
      unfold writeChunkCounted at h
      split at h
      · exact absurd h (by simp)
      · exact absurd h (by simp)
      · rename_i w3 n3 hfin
        rw [writeChunkUnchecked_ok_eq (by simpa [rotateVolume] using h5) hdl] at hfin
        injection hfin with hfin'
        injection hfin' with hw3 hn3
        subst hw3 hn3
        injection h with h'
        subst h'
        have hd' := hd
        unfold chunkSize extraSize ADDITIONAL_BYTES at hd'
        refine ⟨?_, ?_, ?_, by simpa [rotateVolume] using h4,
          by simpa [rotateVolume] using h5⟩
        · simp only [rotateVolume]
          unfold extraSize ADDITIONAL_BYTES
          omega
        · simp only [rotateVolume]
          simp [length_encMsg, length_u32be]
        · intro vol hvol
          simp only [rotateVolume] at hvol
          simp at hvol
          rcases hvol with hvol | hvol
          · exact h3 vol hvol
          · subst hvol
            have h1' := h1
            unfold extraSize at h1'
            simp [length_encMsg, length_u32be, h2, ADDITIONAL_BYTES]
            omega
  · rw [if_neg (by simpa using hcmp)] at h
    unfold writeChunkCounted at h
    split at h
    · exact absurd h (by simp)
    · exact absurd h (by simp)
    · rename_i w3 n3 hfin
      rw [writeChunkUnchecked_ok_eq h5 hdl] at hfin
      injection hfin with hfin'
      injection hfin' with hw3 hn3
      subst hw3 hn3
      injection h with h'
      subst h'
      have hcmp' := hcmp
      have hd' := hd
      unfold chunkSize extraSize ADDITIONAL_BYTES at hcmp' hd'
      refine ⟨?_, ?_, h3, h4, h5⟩
      · simp only [ArchiveWriter.byteCount]
        unfold extraSize ADDITIONAL_BYTES
        omega
      · simp [length_encMsg, length_u32be, h2, ADDITIONAL_BYTES]

theorem runChunks_volInv {V : Nat} {ops : List (ChunkType × List Nat)}
    {w w' : ArchiveWriter}
    (hV : V < 2 ^ 63)
    (hops : ∀ p ∈ ops, chunkSize p.2.length + extraSize + 4096 ≤ V)
    (hinv : volInv V w) (h : runChunks w ops = .ok w') : volInv V w' := by
  induction ops generalizing w with
  | nil =>
    simp only [runChunks] at h
    injection h with h'
    subst h'
    exact hinv
  | cons p rest ih =>
    rcases p with ⟨t, data⟩
    simp only [runChunks] at h
    split at h
    · rename_i w1 heq
      exact ih (fun q hq => hops q (List.mem_cons_of_mem _ hq))
        (writeChunk_volInv hV (hops (t, data) (List.mem_cons_self _ _)) hinv heq) h
    · exact absurd h (by simp)
    · exact absurd h (by simp)

/-- C8 (amended): with volume_size = V, provided V leaves room for the
56-byte format header plus the VolumeEnd allowance and safety margin
(56 + extraSize + 4096 ≤ V < 2^63) and every chunk fits a fresh volume
(chunkSize + extraSize + 4096 ≤ V), every closed volume's on-disk size is
at most V. -/
theorem c8_volume_budget (V : Nat) (salt header : List Nat)
    (ops : List (ChunkType × List Nat)) (w' : ArchiveWriter)
    (hsalt : salt.length = 16) (hheader : header.length = 24)
    (hV0 : 56 + extraSize + 4096 ≤ V) (hV1 : V < 2 ^ 63)
    (hops : ∀ p ∈ ops, chunkSize p.2.length + extraSize + 4096 ≤ V)
    (h : runChunks (ArchiveWriter.new salt header (some V) true) ops = .ok w') :
    ∀ vol ∈ w'.closedVolumes, vol.length ≤ V := by
  have hinit : volInv V (ArchiveWriter.new salt header (some V) true) := by
    refine ⟨?_, rfl, by simp [ArchiveWriter.new], rfl, rfl⟩
    simp [ArchiveWriter.new, hsalt, hheader, u64be]
    omega
  exact (runChunks_volInv hV1 hops hinit h).2.2.1

theorem writeChunkCounted_eq {w : ArchiveWriter} {data : List Nat} {t : ChunkType}
    (hs : w.sinkOk = true) (hl : data.length + ADDITIONAL_BYTES < 2 ^ 32) :
    writeChunkCounted w data t =
      .ok { w with
            msgs := w.msgs ++ [t.toByte :: u32be (data.length + ADDITIONAL_BYTES), data]
            current := w.current ++ encMsg (t.toByte :: u32be (data.length + ADDITIONAL_BYTES))
              ++ encMsg data
            chunks := w.chunks ++ [(t, data)]
            byteCount := w.byteCount + ((5 + ADDITIONAL_BYTES) + (data.length + ADDITIONAL_BYTES)) } := by
  unfold writeChunkCounted
  rw [writeChunkUnchecked_ok_eq hs hl]

theorem writeChunk_rotate_eq {w : ArchiveWriter} {data : List Nat} {t : ChunkType} {V : Nat}
    (hv : w.volumeSize = some V)
    (hrot : rotateNeeded w.byteCount data.length V = true)
    (hs : w.sinkOk = true) :
    writeChunk w data t =
      writeChunkCounted
        (rotateVolume { w with
          msgs := w.msgs
            ++ [ChunkType.VolumeEnd.toByte :: u32be (([] : List Nat).length + ADDITIONAL_BYTES),
                ([] : List Nat)]
          current := w.current
            ++ encMsg (ChunkType.VolumeEnd.toByte :: u32be (([] : List Nat).length + ADDITIONAL_BYTES))
            ++ encMsg []
          chunks := w.chunks ++ [(ChunkType.VolumeEnd, [])] }) data t := by
  unfold writeChunk
  simp only [hv, hrot, if_pos]
  rw [writeChunkUnchecked_ok_eq hs (by simp [ADDITIONAL_BYTES])]
  rw [hv]

/-- C8 counterexample: with volume_size 4200, writing a 4200-byte payload
and then any further chunk closes a 4278-byte volume — a non-final volume
larger than the configured size, because the rotation check never trims a
chunk that exceeds a fresh volume's budget. -/
theorem c8_counterexample :
    (match c8run with
      | WRes.ok w => some (w.closedVolumes.map List.length)
      | _ => none) = some [95, 4278] ∧ 4200 < 4278 := by
  refine ⟨?_, by omega⟩
  simp only [c8run, runChunks]
  rw [writeChunk_rotate_eq (V := 4200) rfl
    (by rw [List.length_replicate]; decide) rfl]
  rw [writeChunkCounted_eq rfl (by rw [List.length_replicate]; decide)]
  simp only []
  rw [writeChunk_rotate_eq (V := 4200) rfl
    (by simp only [rotateVolume, List.length_replicate]; decide) rfl]
  rw [writeChunkCounted_eq rfl (by decide)]
  simp only [runChunks]
  simp only [rotateVolume, ArchiveWriter.new, List.map, List.length_append, length_encMsg,
    length_u32be, List.length_replicate, List.length_nil, List.append_nil, List.nil_append,
    List.length_cons, salt0, header0, u64be]
  norm_num [ADDITIONAL_BYTES]

/-- C8 witness: the amended C8 theorem applied to a concrete
single-chunk run with a comfortable budget. -/
theorem c8_witness : (c8w'.closedVolumes.headD []).length ≤ 6000 :=
  c8_volume_budget 6000 salt0 header0 c8ops0 c8w' (by decide) (by decide)
    (by decide) (by decide) (by decide) (by decide)
    (c8w'.closedVolumes.headD []) (by decide)

theorem length_setRange {l src : List Nat} {i : Nat} (h : i + src.length ≤ l.length) :
    (setRange l i src).length = l.length := by
  simp [setRange, List.length_take, List.length_drop]
  omega

theorem Buffer.putCompact_spec {b : Buffer} {data : List Nat} (h : b.wf) :
    (b.putCompact data).wf ∧ (b.putCompact data).contents = b.contents ∧
      (b.putCompact data).len = b.len ∧
      (b.putCompact data).initialCapacity = b.initialCapacity := by
  unfold Buffer.wf at h
  unfold Buffer.putCompact
  by_cases hc : b.buf.length - (b.offset + b.len) < data.length
  · rw [if_pos hc]
    have hlive : ((b.buf.drop b.offset).take b.len).length = b.len := by
      simp [List.length_take, List.length_drop]
      omega
    have hlen : (setRange b.buf 0 ((b.buf.drop b.offset).take b.len)).length = b.buf.length :=
      length_setRange (by omega)
    refine ⟨?_, ?_, rfl, rfl⟩
    · unfold Buffer.wf
      simp [hlen]
      omega
    · unfold Buffer.contents
      simp only [setRange, List.take_zero, List.nil_append, List.drop_zero, Nat.zero_add]
      rw [List.take_append_of_le_length (by rw [hlive])]
      simp [List.take_take]
  · rw [if_neg hc]
    exact ⟨h, rfl, rfl, rfl⟩

theorem Buffer.putGrow_spec {b : Buffer} {data : List Nat} (h : b.wf) :
    (b.putGrow data).wf ∧ (b.putGrow data).contents = b.contents ∧
      (b.putGrow data).len = b.len ∧ (b.putGrow data).offset = b.offset ∧
      (b.putGrow data).initialCapacity = b.initialCapacity ∧
      (b.putGrow data).offset + (b.putGrow data).len + data.length ≤
        (b.putGrow data).buf.length := by
  unfold Buffer.wf at h
  unfold Buffer.putGrow
  by_cases hc : b.buf.length - (b.offset + b.len) < data.length
  · rw [if_pos hc]
    refine ⟨?_, ?_, rfl, rfl, rfl, ?_⟩
    · unfold Buffer.wf
      simp
      omega
    · unfold Buffer.contents
      simp only []
      rw [List.drop_append_of_le_length (by omega),
        List.take_append_of_le_length (by simp [List.length_drop]; omega)]
    · simp
      omega
  · rw [if_neg hc]
    exact ⟨h, rfl, rfl, rfl, rfl, by omega⟩

theorem Buffer.putWrite_spec {b : Buffer} {data : List Nat}
    (h : b.offset + b.len + data.length ≤ b.buf.length) :
    (b.putWrite data).wf ∧ (b.putWrite data).contents = b.contents ++ data ∧
      (b.putWrite data).len = b.len + data.length ∧
      (b.putWrite data).initialCapacity = b.initialCapacity := by
  unfold Buffer.putWrite
  have hA : (b.buf.take (b.offset + b.len)).length = b.offset + b.len := by
    simp [List.length_take]
    omega
  refine ⟨?_, ?_, rfl, rfl⟩
  · unfold Buffer.wf
    simp only []
    rw [length_setRange (by omega)]
    omega
  · unfold Buffer.contents
    simp only [setRange]
    rw [List.append_assoc, List.drop_append_of_le_length (by omega)]
    rw [List.drop_take]
    have hX : ((b.buf.drop b.offset).take (b.offset + b.len - b.offset)).length = b.len := by
      simp [List.length_take, List.length_drop]
      omega
    rw [show b.len + data.length = ((b.buf.drop b.offset).take (b.offset + b.len - b.offset)).length
        + data.length from by rw [hX]]
    rw [List.take_append]
    rw [List.take_append_of_le_length (le_refl data.length), List.take_length]
    congr 1
    congr 1
    omega

theorem Buffer.put_spec {b : Buffer} {data : List Nat} (h : b.wf) :
    (b.put data).wf ∧ (b.put data).contents = b.contents ++ data ∧
      (b.put data).len = b.len + data.length ∧
      (b.put data).initialCapacity = b.initialCapacity := by
  obtain ⟨w1, c1, l1, i1⟩ := @Buffer.putCompact_spec b data h
  obtain ⟨w2, c2, l2, o2, i2, hroom⟩ := @Buffer.putGrow_spec (b.putCompact data) data w1
  obtain ⟨w3, c3, l3, i3⟩ :=
    @Buffer.putWrite_spec ((b.putCompact data).putGrow data) data hroom
  refine ⟨w3, ?_, ?_, ?_⟩
  · unfold Buffer.put
    rw [c3, c2, c1]
  · unfold Buffer.put
    rw [l3, l2, l1]
  · unfold Buffer.put
    rw [i3, i2, i1]

theorem Buffer.wf_withCapacity (c : Nat) : (Buffer.withCapacity c).wf := by
  simp [Buffer.wf, Buffer.withCapacity]

theorem Buffer.contents_withCapacity (c : Nat) : (Buffer.withCapacity c).contents = [] := by
  simp [Buffer.contents, Buffer.withCapacity]

theorem Buffer.drainInto_spec {b : Buffer} {dst : List Nat} (h : b.wf) :
    (b.drainInto dst).2.2 = min dst.length b.len ∧
      (b.drainInto dst).1.wf ∧
      (b.drainInto dst).1.contents = b.contents.drop (min dst.length b.len) ∧
      (b.drainInto dst).2.1 =
        b.contents.take (min dst.length b.len) ++ dst.drop (min dst.length b.len) := by
  unfold Buffer.wf at h
  refine ⟨rfl, ?_, ?_, ?_⟩
  · unfold Buffer.drainInto Buffer.wf
    simp only []
    omega
  · unfold Buffer.drainInto Buffer.contents
    simp only []
    rw [List.drop_take, List.drop_drop]
  · unfold Buffer.drainInto Buffer.contents
    simp only [setRange, List.take_zero, List.nil_append, Nat.zero_add]
    rw [List.take_take]
    congr 1
    · congr 1
      omega
    · congr 1
      simp [List.length_take, List.length_drop]
      omega

/-- C10: the Buffer preserves its well-formedness invariant
(offset + len ≤ buf.length) across with_capacity, put and drain_into; put
appends exactly its argument after the live bytes; drain_into removes
exactly min(dst.len, len) bytes from the head, copying them into the
destination's front in order; and any sequence of puts appends the
concatenation of the put byte strings. -/
theorem c10_buffer_fifo :
    (∀ c : Nat, (Buffer.withCapacity c).wf ∧ (Buffer.withCapacity c).contents = []) ∧
    (∀ (b : Buffer) (data : List Nat), b.wf →
      (b.put data).wf ∧ (b.put data).contents = b.contents ++ data) ∧
    (∀ (b : Buffer) (dst : List Nat), b.wf →
      (b.drainInto dst).2.2 = min dst.length b.len ∧
      (b.drainInto dst).1.wf ∧
      (b.drainInto dst).1.contents = b.contents.drop (min dst.length b.len) ∧
      (b.drainInto dst).2.1 =
        b.contents.take (min dst.length b.len) ++ dst.drop (min dst.length b.len)) ∧
    (∀ (b : Buffer) (bss : List (List Nat)), b.wf →
      (bss.foldl Buffer.put b).wf ∧
      (bss.foldl Buffer.put b).contents = b.contents ++ bss.flatten) := by
  refine ⟨fun c => ⟨Buffer.wf_withCapacity c, Buffer.contents_withCapacity c⟩,
    fun b data h => ⟨(Buffer.put_spec h).1, (Buffer.put_spec h).2.1⟩,
    fun b dst h => Buffer.drainInto_spec h,
    fun b bss => ?_⟩
  induction bss generalizing b with
  | nil => exact fun h => ⟨h, by simp⟩
  | cons d rest ih =>
    intro h
    obtain ⟨hwf, hc, _⟩ := @Buffer.put_spec b d h
    obtain ⟨hwf', hc'⟩ := ih (b := b.put d) hwf
    exact ⟨hwf', by simp [hc', hc]⟩

/-- C10 witness: C10's put clause applied to a concrete buffer. -/
theorem c10_witness :
    (buf0.put [1, 2, 3]).wf ∧ (buf0.put [1, 2, 3]).contents = buf0.contents ++ [1, 2, 3] :=
  c10_buffer_fifo.2.1 buf0 [1, 2, 3] (by decide)
